import Mathlib

/-!
Verification development for the static-site generator in
`build_static_site.py`.  Strings are modelled as `List Char` (Python `str`
over its code points); paths relative to the input/output roots are modelled
as a list of directory components plus a filename.  All definitions are
translated from the Python source; modelling notes appear on each definition.
-/

set_option maxHeartbeats 1000000
set_option maxRecDepth 100000

/-- Python `\s` / `str.strip()` whitespace, restricted to the ASCII range
(the inputs relevant to the claims are ASCII). -/
def isSpaceC (c : Char) : Bool :=
  c = ' ' || c = '\t' || c = '\n' || c = '\r' || c = '\x0b' || c = '\x0c'

/-- Python `\d` / `str.isdigit()` on ASCII (Python also accepts non-ASCII
digits; both sides of every claim use the same digit test, so this is
immaterial to the claims). -/
def isDigitC (c : Char) : Bool :=
  '0' ≤ c && c ≤ '9'

/-- First-match association-list lookup (Python `dict[k]` / `dict.get(k)`;
dicts are modelled as association lists in insertion order). -/
def alookup {α β : Type} [DecidableEq α] (a : α) : List (α × β) → Option β
  | [] => none
  | (b, v) :: t => if b = a then some v else alookup a t

theorem alookup_mem {α β : Type} [DecidableEq α] (a : α) (l : List (α × β))
    (b : β) (h : alookup a l = some b) : (a, b) ∈ l := by
  induction l with
  | nil => cases h
  | cons hd t ih =>
    rw [alookup] at h
    split at h
    · rename_i he
      injection h with hv
      subst he
      subst hv
      simp
    · right
      exact ih h

/-- The uppercase-to-lowercase table of ASCII. -/
def ulTable : List (Char × Char) :=
  [('A', 'a'), ('B', 'b'), ('C', 'c'), ('D', 'd'), ('E', 'e'), ('F', 'f'),
   ('G', 'g'), ('H', 'h'), ('I', 'i'), ('J', 'j'), ('K', 'k'), ('L', 'l'),
   ('M', 'm'), ('N', 'n'), ('O', 'o'), ('P', 'p'), ('Q', 'q'), ('R', 'r'),
   ('S', 's'), ('T', 't'), ('U', 'u'), ('V', 'v'), ('W', 'w'), ('X', 'x'),
   ('Y', 'y'), ('Z', 'z')]

/-- Python `str.lower()` on ASCII characters (the claims involve only
ASCII keys). -/
def lowerC (c : Char) : Char :=
  match alookup c ulTable with
  | some d => d
  | none => c

theorem lowerC_pair_mem (c : Char) :
    lowerC c = c ∨ (c, lowerC c) ∈ ulTable := by
  unfold lowerC
  cases h : alookup c ulTable with
  | none => left; rfl
  | some d => right; exact alookup_mem c ulTable d h

/-- Python `str.upper()` on ASCII characters. -/
def upperC (c : Char) : Char :=
  match c with
  | 'a' => 'A' | 'b' => 'B' | 'c' => 'C' | 'd' => 'D' | 'e' => 'E'
  | 'f' => 'F' | 'g' => 'G' | 'h' => 'H' | 'i' => 'I' | 'j' => 'J'
  | 'k' => 'K' | 'l' => 'L' | 'm' => 'M' | 'n' => 'N' | 'o' => 'O'
  | 'p' => 'P' | 'q' => 'Q' | 'r' => 'R' | 's' => 'S' | 't' => 'T'
  | 'u' => 'U' | 'v' => 'V' | 'w' => 'W' | 'x' => 'X' | 'y' => 'Y'
  | 'z' => 'Z' | c    => c

/-- `str.lower()`, characterwise. -/
def pyLower (l : List Char) : List Char := l.map lowerC

/-- `str.upper()`, characterwise. -/
def pyUpper (l : List Char) : List Char := l.map upperC

/-- Remove trailing characters satisfying `p` (right half of `str.strip`). -/
def stripRightP (p : Char → Bool) : List Char → List Char
  | [] => []
  | c :: cs =>
    match stripRightP p cs with
    | [] => if p c then [] else [c]
    | r => c :: r

/-- Python `str.strip(chars)`: remove leading and trailing characters
satisfying `p`. -/
def stripLR (p : Char → Bool) (l : List Char) : List Char :=
  stripRightP p (l.dropWhile p)

/-- Python `str.strip()` (whitespace). -/
def pyStrip (l : List Char) : List Char := stripLR isSpaceC l

theorem stripRightP_cons (p : Char → Bool) (c : Char) (cs : List Char) :
    stripRightP p (c :: cs) =
      match stripRightP p cs with
      | [] => if p c then [] else [c]
      | r => c :: r := rfl

theorem dropWhile_dropWhile (p : Char → Bool) (l : List Char) :
    (l.dropWhile p).dropWhile p = l.dropWhile p := by
  induction l with
  | nil => rfl
  | cons c cs ih =>
    by_cases h : p c
    · simpa [List.dropWhile, h] using ih
    · simp [List.dropWhile, h]

theorem stripRightP_idem (p : Char → Bool) (l : List Char) :
    stripRightP p (stripRightP p l) = stripRightP p l := by
  induction l with
  | nil => rfl
  | cons c cs ih =>
    cases h : stripRightP p cs with
    | nil =>
      by_cases hc : p c
      · simp [stripRightP, h, hc]
      · simp [stripRightP, h, hc]
    | cons r rs =>
      rw [h] at ih
      have e1 : stripRightP p (c :: cs) = c :: r :: rs := by
        rw [stripRightP_cons, h]
      rw [e1, stripRightP_cons, ih]

theorem length_dropWhile_le' (p : Char → Bool) (l : List Char) :
    (l.dropWhile p).length ≤ l.length := by
  induction l with
  | nil => simp
  | cons c cs ih =>
    by_cases h : p c
    · simp only [List.dropWhile, h]
      exact Nat.le_trans ih (by simp)
    · simp [List.dropWhile, h]

theorem dropWhile_cons_eq_self (p : Char → Bool) (c : Char) (cs : List Char)
    (h : (c :: cs).dropWhile p = c :: cs) : ¬ p c := by
  intro hc
  simp only [List.dropWhile, hc] at h
  have h1 := length_dropWhile_le' p cs
  rw [h] at h1
  simp at h1

theorem dropWhile_stripRightP (p : Char → Bool) (l : List Char)
    (h : l.dropWhile p = l) : (stripRightP p l).dropWhile p = stripRightP p l := by
  cases l with
  | nil => rfl
  | cons c cs =>
    have hc : ¬ p c := dropWhile_cons_eq_self p c cs h
    cases hrec : stripRightP p cs with
    | nil => simp [stripRightP, hrec, hc, List.dropWhile]
    | cons r rs => simp [stripRightP, hrec, List.dropWhile, hc]

theorem stripLR_idem (p : Char → Bool) (l : List Char) :
    stripLR p (stripLR p l) = stripLR p l := by
  unfold stripLR
  rw [dropWhile_stripRightP p _ (dropWhile_dropWhile p l), stripRightP_idem]

theorem dropWhile_of_all (p : Char → Bool) (l : List Char)
    (h : ∀ c ∈ l, ¬ p c) : l.dropWhile p = l := by
  induction l with
  | nil => rfl
  | cons c cs ih =>
    have hc : ¬ p c := h c (by simp)
    simp [List.dropWhile, hc]

theorem stripRightP_of_all (p : Char → Bool) (l : List Char)
    (h : ∀ c ∈ l, ¬ p c) : stripRightP p l = l := by
  induction l with
  | nil => rfl
  | cons c cs ih =>
    have hc : ¬ p c := h c (by simp)
    have ih' := ih (fun d hd => h d (by simp [hd]))
    cases hrec : stripRightP p cs with
    | nil =>
      rw [hrec] at ih'
      simp [stripRightP, hrec, hc, ← ih']
    | cons r rs =>
      rw [ih'] at hrec
      subst hrec
      rw [stripRightP_cons, ih']

theorem stripLR_of_all (p : Char → Bool) (l : List Char)
    (h : ∀ c ∈ l, ¬ p c) : stripLR p l = l := by
  unfold stripLR
  rw [dropWhile_of_all p l h, stripRightP_of_all p l h]

/-! MD5, as used by `hashlib.md5(...).hexdigest()` in the sanitizer.  32-bit
words are `Nat` values kept below `2 ^ 32`; bytes are `Nat` values below 256.
Strings are hashed via their UTF-8 encoding, as `str.encode("utf-8")` does. -/

/-- UTF-8 encoding of one code point. -/
def utf8Char (c : Char) : List Nat :=
  let n := c.toNat
  if n < 0x80 then [n]
  else if n < 0x800 then [0xC0 + n / 64, 0x80 + n % 64]
  else if n < 0x10000 then
    [0xE0 + n / 4096, 0x80 + (n / 64) % 64, 0x80 + n % 64]
  else
    [0xF0 + n / 262144, 0x80 + (n / 4096) % 64, 0x80 + (n / 64) % 64,
      0x80 + n % 64]

/-- UTF-8 encoding of a string (`str.encode("utf-8")`). -/
def utf8Bytes (l : List Char) : List Nat :=
  l.foldr (fun c acc => utf8Char c ++ acc) []

/-- Per-round left-rotation amounts of MD5. -/
def md5Shift : List Nat :=
  [7, 12, 17, 22, 7, 12, 17, 22, 7, 12, 17, 22, 7, 12, 17, 22,
   5, 9, 14, 20, 5, 9, 14, 20, 5, 9, 14, 20, 5, 9, 14, 20,
   4, 11, 16, 23, 4, 11, 16, 23, 4, 11, 16, 23, 4, 11, 16, 23,
   6, 10, 15, 21, 6, 10, 15, 21, 6, 10, 15, 21, 6, 10, 15, 21]

/-- MD5 sine-derived round constants. -/
def md5K : List Nat :=
  [0xd76aa478, 0xe8c7b756, 0x242070db, 0xc1bdceee,
   0xf57c0faf, 0x4787c62a, 0xa8304613, 0xfd469501,
   0x698098d8, 0x8b44f7af, 0xffff5bb1, 0x895cd7be,
   0x6b901122, 0xfd987193, 0xa679438e, 0x49b40821,
   0xf61e2562, 0xc040b340, 0x265e5a51, 0xe9b6c7aa,
   0xd62f105d, 0x02441453, 0xd8a1e681, 0xe7d3fbc8,
   0x21e1cde6, 0xc33707d6, 0xf4d50d87, 0x455a14ed,
   0xa9e3e905, 0xfcefa3f8, 0x676f02d9, 0x8d2a4c8a,
   0xfffa3942, 0x8771f681, 0x6d9d6122, 0xfde5380c,
   0xa4beea44, 0x4bdecfa9, 0xf6bb4b60, 0xbebfbc70,
   0x289b7ec6, 0xeaa127fa, 0xd4ef3085, 0x04881d05,
   0xd9d4d039, 0xe6db99e5, 0x1fa27cf8, 0xc4ac5665,
   0xf4292244, 0x432aff97, 0xab9423a7, 0xfc93a039,
   0x655b59c3, 0x8f0ccc92, 0xffeff47d, 0x85845dd1,
   0x6fa87e4f, 0xfe2ce6e0, 0xa3014314, 0x4e0811a1,
   0xf7537e82, 0xbd3af235, 0x2ad7d2bb, 0xeb86d391]

/-- 32-bit complement. -/
def not32 (x : Nat) : Nat := Nat.xor x 0xFFFFFFFF

/-- 32-bit left rotation. -/
def rotl32 (x n : Nat) : Nat :=
  Nat.lor (Nat.shiftLeft x n % 0x100000000) (Nat.shiftRight (x % 0x100000000) (32 - n))

/-- Little-endian 32-bit word from four bytes of a chunk. -/
def le32At (chunk : List Nat) (j : Nat) : Nat :=
  chunk.getD (4 * j) 0 + 256 * chunk.getD (4 * j + 1) 0 +
    65536 * chunk.getD (4 * j + 2) 0 + 16777216 * chunk.getD (4 * j + 3) 0

/-- One MD5 step (round `i`, message schedule from `chunk`). -/
def md5Step (chunk : List Nat) (st : Nat × Nat × Nat × Nat) (i : Nat) :
    Nat × Nat × Nat × Nat :=
  let a := st.1
  let b := st.2.1
  let c := st.2.2.1
  let d := st.2.2.2
  let f :=
    if i < 16 then Nat.lor (Nat.land b c) (Nat.land (not32 b) d)
    else if i < 32 then Nat.lor (Nat.land d b) (Nat.land (not32 d) c)
    else if i < 48 then Nat.xor (Nat.xor b c) d
    else Nat.xor c (Nat.lor b (not32 d))
  let g :=
    if i < 16 then i
    else if i < 32 then (5 * i + 1) % 16
    else if i < 48 then (3 * i + 5) % 16
    else (7 * i) % 16
  let t := (f + a + md5K.getD i 0 + le32At chunk g) % 0x100000000
  let b2 := (b + rotl32 t (md5Shift.getD i 0)) % 0x100000000
  (d, b2, b, c)

/-- Process one 64-byte chunk into the running state. -/
def md5Chunk (st : Nat × Nat × Nat × Nat) (chunk : List Nat) :
    Nat × Nat × Nat × Nat :=
  let r := (List.range 64).foldl (md5Step chunk) st
  ((st.1 + r.1) % 0x100000000, (st.2.1 + r.2.1) % 0x100000000,
    (st.2.2.1 + r.2.2.1) % 0x100000000, (st.2.2.2 + r.2.2.2) % 0x100000000)

/-- Split a byte list into 64-byte chunks; the `Nat` argument is structural
fuel (each step consumes 64 bytes, so `l.length` steps always suffice). -/
def chunks64Go : Nat → List Nat → List (List Nat)
  | _, [] => []
  | 0, _ :: _ => []
  | fuel + 1, c :: cs => (c :: cs).take 64 :: chunks64Go fuel ((c :: cs).drop 64)

/-- Split a byte list into 64-byte chunks. -/
def chunks64 (l : List Nat) : List (List Nat) := chunks64Go l.length l

/-- MD5 padding: `0x80`, zeros to 56 mod 64, then the 64-bit little-endian
bit length. -/
def md5Pad (msg : List Nat) : List Nat :=
  let lenBits := (msg.length * 8) % (2 ^ 64)
  let zeros := (56 + 64 - (msg.length + 1) % 64) % 64
  msg ++ [0x80] ++ List.replicate zeros 0 ++
    [lenBits % 256, lenBits / 256 % 256, lenBits / 65536 % 256,
      lenBits / 16777216 % 256, lenBits / 4294967296 % 256,
      lenBits / 1099511627776 % 256, lenBits / 281474976710656 % 256,
      lenBits / 72057594037927936 % 256]

/-- Little-endian bytes of a 32-bit word. -/
def le4 (x : Nat) : List Nat :=
  [x % 256, x / 256 % 256, x / 65536 % 256, x / 16777216 % 256]

/-- MD5 digest (16 bytes) of a byte list. -/
def md5Bytes (msg : List Nat) : List Nat :=
  let st := (chunks64 (md5Pad msg)).foldl md5Chunk
    (0x67452301, 0xefcdab89, 0x98badcfe, 0x10325476)
  le4 st.1 ++ le4 st.2.1 ++ le4 st.2.2.1 ++ le4 st.2.2.2

/-- The lowercase hex digit alphabet of `hexdigest`. -/
def hexDigits : List Char := "0123456789abcdef".data

/-- Lowercase hex digit of a value below 16. -/
def hexChar (n : Nat) : Char :=
  match hexDigits.get? n with
  | some c => c
  | none => 'f'

/-- Two lowercase hex digits of a byte. -/
def byteHex (b : Nat) : List Char := [hexChar (b / 16 % 16), hexChar (b % 16)]

/-- `hashlib.md5(s.encode("utf-8")).hexdigest()`. -/
def md5Hexdigest (s : List Char) : List Char :=
  (md5Bytes (utf8Bytes s)).foldr (fun b acc => byteHex b ++ acc) []

/-- `hashlib.md5(rel.encode("utf-8")).hexdigest()[:6]`, the collision
suffix used by the sanitizer. -/
def md5Hex6 (s : List Char) : List Char := (md5Hexdigest s).take 6

/-! Paths.  A document path relative to the input root (`md_path.relative_to
(input_root)`) is a list of directory components plus a filename; output
paths are likewise relative to the output root.  The components contain no
separators, which is all `pathlib` normalization assumed here. -/

/-- A path relative to a root: directory components plus final filename. -/
structure RelPath where
  dirs : List (List Char)
  fname : List Char
deriving DecidableEq

/-- Index of the last `'.'` in a name (`str.rfind('.')`), if any. -/
def lastDotIdx : List Char → Option Nat
  | [] => none
  | c :: cs =>
    match lastDotIdx cs with
    | some i => some (i + 1)
    | none => if c = '.' then some 0 else none

/-- `pathlib.PurePath.stem`: the name without its last suffix.  The suffix
starts at the last dot provided that dot is neither the first nor the last
character. -/
def pyStem (name : List Char) : List Char :=
  match lastDotIdx name with
  | some i => if 0 < i ∧ i < name.length - 1 then name.take i else name
  | none => name

/-- `pathlib.PurePath.suffix` of a name. -/
def pySuffix (name : List Char) : List Char :=
  match lastDotIdx name with
  | some i => if 0 < i ∧ i < name.length - 1 then name.drop i else []
  | none => []

/-- Join path components with forward slashes (`PurePath.as_posix()`). -/
def joinSlash : List (List Char) → List Char
  | [] => []
  | [x] => x
  | x :: y :: xs => x ++ '/' :: joinSlash (y :: xs)

/-- `rel.as_posix()`: the hash input used by `relative_output_html`. -/
def posixOf (p : RelPath) : List Char := joinSlash (p.dirs ++ [p.fname])

/-- Characters invalid on Windows, removed by the sanitizer's first
substitution (`[<>:"/\\|?*]`). -/
def isInvalidWinChar (c : Char) : Bool :=
  c = '<' || c = '>' || c = ':' || c = '"' || c = '/' || c = '\\' ||
    c = '|' || c = '?' || c = '*'

/-- Control characters (`[\x00-\x1F]`), removed by the sanitizer. -/
def isCtlChar (c : Char) : Bool := c.toNat ≤ 0x1F

/-- The trim class of `str.strip(" .")`. -/
def isSpaceDot (c : Char) : Bool := c = ' ' || c = '.'

/-- `_WINDOWS_RESERVED_NAMES`. -/
def windowsReservedNames : List (List Char) :=
  ["CON", "PRN", "AUX", "NUL",
   "COM1", "COM2", "COM3", "COM4", "COM5", "COM6", "COM7", "COM8", "COM9",
   "LPT1", "LPT2", "LPT3", "LPT4", "LPT5", "LPT6", "LPT7", "LPT8",
   "LPT9"].map String.data

/-- The sanitizer's first three steps: replace invalid characters with
dashes, drop control characters, trim spaces and dots. -/
def sanitizedCore (stem : List Char) : List Char :=
  stripLR isSpaceDot
    ((stem.map fun c => if isInvalidWinChar c then '-' else c).filter
      fun c => !isCtlChar c)

/-- `_sanitize_stem_for_windows(stem, rel_path_for_hash, max_len)`.  The
caller always passes `max_len = 80`; `maxLen - suffix.length` uses truncated
`Nat` subtraction, which agrees with Python for every `maxLen ≥ 7`. -/
def sanitizeStemForWindows (stem relPathForHash : List Char) (maxLen : Nat) :
    List Char :=
  let s3 := sanitizedCore stem
  let changed1 : Bool := decide (s3 ≠ stem)
  let truncated : Bool := decide (s3.length > maxLen)
  let s4 := if s3.length > maxLen then s3.take maxLen else s3
  let reserved : Bool := decide (pyUpper s4 ∈ windowsReservedNames)
  let s5 := if reserved then s4 ++ ['_'] else s4
  let s6 :=
    if changed1 || reserved || truncated then
      let sfx := '-' :: md5Hex6 relPathForHash
      let s5t := if s5.length + sfx.length > maxLen
        then s5.take (maxLen - sfx.length) else s5
      s5t ++ sfx
    else s5
  let s7 := stripLR isSpaceDot s6
  if s7 = [] then "untitled".data else s7

/-- `Path.with_suffix(".html")` applied to a filename: replace the existing
suffix, or append when there is none. -/
def pyWithSuffixHtml (name : List Char) : List Char :=
  (if pySuffix name = [] then name else pyStem name) ++ ".html".data

/-- `relative_output_html(input_root, output_root, md_path)`, expressed on
the root-relative path `rel`; the result is relative to the output root. -/
def relativeOutputHtml (rel : RelPath) : RelPath :=
  if pyLower rel.fname = "index.md".data ∧ rel.dirs = [] then
    ⟨[], "index.html".data⟩
  else if pyLower rel.fname = "index.md".data then
    ⟨rel.dirs, pyWithSuffixHtml rel.fname⟩
  else
    ⟨rel.dirs,
      sanitizeStemForWindows (pyStem rel.fname) (posixOf rel) 80 ++
        ".html".data⟩

/-- `is_markdown_file`: suffix lowercases to `.md` or `.markdown`. -/
def isMarkdownFile (fname : List Char) : Bool :=
  decide (pyLower (pySuffix fname) = ".md".data) ||
    decide (pyLower (pySuffix fname) = ".markdown".data)

/-- Name starts with a dot (hidden entry). -/
def startsWithDot : List Char → Bool
  | '.' :: _ => true
  | _ => false

/-- Python `d[:1].isdigit()`: first character is a digit (`False` for the
empty name). -/
def headDigit : List Char → Bool
  | c :: _ => isDigitC c
  | [] => false

/-- `_is_included_md` from `write_pages`: non-hidden filename; at the root
only `index.md` (case-insensitively); otherwise the top-level folder must
start with a digit. -/
def isIncludedMd (p : RelPath) : Bool :=
  if startsWithDot p.fname then false
  else
    match p.dirs with
    | [] => decide (pyLower p.fname = "index.md".data)
    | d :: _ => headDigit d

/-- Membership in `write_pages`' flat document list: produced by
`input_root.rglob("*.md")` (name ends in `.md`; `pathlib` glob descends into
hidden directories and matches hidden files) filtered by `_is_included_md`. -/
def writeIncluded (p : RelPath) : Bool :=
  decide (".md".data <:+ p.fname) && isIncludedMd p

/-- Membership in the `build_nav_tree` navigation tree: the walk prunes
hidden directories at every level and keeps only digit-initial folders at
the top level; files must be non-hidden markdown files, and at the root only
`index.md` (case-insensitively) is kept. -/
def navIncluded (p : RelPath) : Bool :=
  p.dirs.all (fun d => !startsWithDot d) &&
  (match p.dirs with
   | [] => true
   | d :: _ => headDigit d) &&
  !startsWithDot p.fname && isMarkdownFile p.fname &&
  (match p.dirs with
   | [] => decide (pyLower p.fname = "index.md".data)
   | _ :: _ => true)

/-! The Title Resolver: `strip_numeric_prefix` applies
`re.sub(r"^\s*\d[\d._-]*\s*[-_. ]\s*", "", stem)` (anchored, so at most one
replacement) and strips the result.  The pattern is embedded as a
backtracking matcher: each starred class is tried greedily, falling back to
shorter matches, exactly as Python's engine does. -/

/-- First-success choice on options (backtracking alternation). -/
def oOr {α : Type} (a b : Option α) : Option α :=
  match a with
  | some x => some x
  | none => b

/-- The character class `[\d._-]`. -/
def classA (c : Char) : Bool := isDigitC c || c = '.' || c = '_' || c = '-'

/-- The character class `[-_. ]` (note: a literal space, not all
whitespace). -/
def classSep (c : Char) : Bool := c = '-' || c = '_' || c = '.' || c = ' '

/-- Match `[-_. ]\s*` and return the rest. -/
def matchSepWS : List Char → Option (List Char)
  | [] => none
  | c :: cs => if classSep c then some (cs.dropWhile isSpaceC) else none

/-- Match `\s*[-_. ]\s*` greedily with backtracking. -/
def matchWSSep : List Char → Option (List Char)
  | [] => none
  | c :: cs =>
    if isSpaceC c then oOr (matchWSSep cs) (matchSepWS (c :: cs))
    else matchSepWS (c :: cs)

/-- Match `[\d._-]*\s*[-_. ]\s*` greedily with backtracking. -/
def matchTail : List Char → Option (List Char)
  | [] => none
  | c :: cs =>
    if classA c then oOr (matchTail cs) (matchWSSep (c :: cs))
    else matchWSSep (c :: cs)

/-- Match the full anchored pattern `^\s*\d[\d._-]*\s*[-_. ]\s*`; returns
the unmatched remainder on success.  (`\s*` before `\d` is safely maximal
because the two classes are disjoint.) -/
def ordMatch (l : List Char) : Option (List Char) :=
  match l.dropWhile isSpaceC with
  | c :: cs => if isDigitC c then matchTail cs else none
  | [] => none

/-- `strip_numeric_prefix(stem)`. -/
def stripNumericPrefixFn (stem : List Char) : List Char :=
  let subRes :=
    match ordMatch stem with
    | some rest => rest
    | none => stem
  let cleaned := pyStrip subRes
  if cleaned = [] then stem else cleaned

/-! The Reference Rewriter: `replace_wikilinks_with_embeds` scans for the
pattern `\[\[([^\]|#]+)(?:#[^\]|]+)?(?:\|([^\]]+))?\]\]` with `re.sub`.
Each starred class here is maximal-munch, which agrees with the
backtracking engine because every class stops exactly at the characters the
following pattern elements can consume. -/

/-- `[^\]|#]`, the target-group class. -/
def g1Class (c : Char) : Bool := !(c = ']' || c = '|' || c = '#')

/-- `[^\]|]`, the fragment-group class. -/
def fragClass (c : Char) : Bool := !(c = ']' || c = '|')

/-- `[^\]]`, the alias-group class. -/
def aliasClass (c : Char) : Bool := !(c = ']')

/-- One match of the wikilink pattern: full text `g0`, target `g1`,
optional alias `g2`, and the remaining input. -/
structure WikiMatch where
  g0 : List Char
  g1 : List Char
  g2 : Option (List Char)
  rest : List Char
deriving DecidableEq

/-- Optional fragment part `(?:#[^\]|]+)?`: returns the matched fragment (if
the group participates) and the rest. -/
def wlFrag (t1 : List Char) : Option (List Char) × List Char :=
  match t1 with
  | '#' :: u =>
    let f := u.takeWhile fragClass
    if f = [] then (none, t1) else (some f, u.dropWhile fragClass)
  | _ => (none, t1)

/-- Optional alias part `(?:\|([^\]]+))?`. -/
def wlAlias (t2 : List Char) : Option (List Char) × List Char :=
  match t2 with
  | '|' :: u =>
    let a := u.takeWhile aliasClass
    if a = [] then (none, t2) else (some a, u.dropWhile aliasClass)
  | _ => (none, t2)

/-- Match the wikilink pattern at the head of the input. -/
def matchWikilink : List Char → Option WikiMatch
  | '[' :: '[' :: t =>
    let g1 := t.takeWhile g1Class
    let t1 := t.dropWhile g1Class
    if g1 = [] then none
    else
      let fr := wlFrag t1
      let al := wlAlias fr.2
      match al.2 with
      | ']' :: ']' :: rest =>
        some ⟨'[' :: '[' ::
          (g1 ++
            (match fr.1 with
             | some f => '#' :: f
             | none => []) ++
            (match al.1 with
             | some a => '|' :: a
             | none => []) ++
            (']' :: ']' :: [])), g1, al.1, rest⟩
      | _ => none
  | _ => none

theorem wlFrag_snd_le (t1 : List Char) : (wlFrag t1).2.length ≤ t1.length := by
  unfold wlFrag
  split
  · dsimp only
    split
    · simp
    · simp only [List.length_cons]
      exact Nat.le_succ_of_le (length_dropWhile_le' fragClass _)
  · simp

theorem wlAlias_snd_le (t2 : List Char) : (wlAlias t2).2.length ≤ t2.length := by
  unfold wlAlias
  split
  · dsimp only
    split
    · simp
    · simp only [List.length_cons]
      exact Nat.le_succ_of_le (length_dropWhile_le' aliasClass _)
  · simp

theorem matchWikilink_rest_lt (l : List Char) (m : WikiMatch)
    (h : matchWikilink l = some m) : m.rest.length < l.length := by
  unfold matchWikilink at h
  split at h
  case h_2 => exact absurd h (by simp)
  case h_1 t =>
    dsimp only at h
    split at h
    · exact absurd h (by simp)
    · split at h
      case h_2 => exact absurd h (by simp)
      case h_1 rest heq =>
        have h1 : (wlFrag (t.dropWhile g1Class)).2.length ≤ t.length :=
          Nat.le_trans (wlFrag_snd_le _) (length_dropWhile_le' g1Class t)
        have h2 : (wlAlias (wlFrag (t.dropWhile g1Class)).2).2.length ≤ t.length :=
          Nat.le_trans (wlAlias_snd_le _) h1
        rw [heq] at h2
        simp only [List.length_cons] at h2
        cases h
        simp only [List.length_cons]
        omega

/-- `re.sub`'s scan: at each position try the pattern; on a match emit the
replacement and continue after it, otherwise emit the character and move
forward one position. -/
def replaceScan (f : WikiMatch → List Char) : List Char → List Char
  | [] => []
  | c :: cs =>
    match h : matchWikilink (c :: cs) with
    | some m => f m ++ replaceScan f m.rest
    | none => c :: replaceScan f cs
termination_by l => l.length
decreasing_by
  · exact matchWikilink_rest_lt _ _ h
  · simp

/-! The Link Index (`build_wikilink_index`) and resolution, plus the pieces
`_repl` uses to build an embed block: `html.escape`, `os.path.relpath`, and
the dict lookups.  Python dicts are modelled as association lists in
insertion order; `dict.setdefault` appends only when the key is absent, so
first-registered bindings win — the same resolution a dict gives. -/

/-- `dict.get(k, default)`. -/
def alookupD {α β : Type} [DecidableEq α] (m : List (α × β)) (a : α)
    (dflt : β) : β :=
  match alookup a m with
  | some v => v
  | none => dflt

/-- `index.setdefault(k, p)`: register `p` under `k` unless `k` is already
registered. -/
def setdefault (idx : List (List Char × RelPath)) (k : List Char)
    (p : RelPath) : List (List Char × RelPath) :=
  match alookup k idx with
  | some _ => idx
  | none => idx ++ [(k, p)]

/-- The candidate keys of one document: raw stem, ordinal-stripped stem, and
canonical title (`title_map.get(p, stripped)`).  The Python code iterates
the set literal `{stem, stripped, title}`; all three keys map to the same
document and `setdefault` ignores duplicates, so iterating the plain list in
any order builds the same index. -/
def candKeys (titleMap : List (RelPath × List Char)) (p : RelPath) :
    List (List Char) :=
  let stem := pyStem p.fname
  let stripped := stripNumericPrefixFn stem
  [stem, stripped, alookupD titleMap p stripped]

/-- Register one document's keys (`if key: index.setdefault(key.lower(), p)`). -/
def addDocKeys (titleMap : List (RelPath × List Char))
    (idx : List (List Char × RelPath)) (p : RelPath) :
    List (List Char × RelPath) :=
  (candKeys titleMap p).foldl
    (fun i k => if k = [] then i else setdefault i (pyLower k) p) idx

/-- `build_wikilink_index(md_paths, title_map)`. -/
def buildWikilinkIndex (mdPaths : List RelPath)
    (titleMap : List (RelPath × List Char)) : List (List Char × RelPath) :=
  mdPaths.foldl (addDocKeys titleMap) []

/-- The resolution steps of `_repl`: strip the raw token, look up its
lowercased form, then fall back to the ordinal-stripped lowercased form. -/
def resolveWikilink (idx : List (List Char × RelPath)) (target : List Char) :
    Option RelPath :=
  let t := pyStrip target
  match alookup (pyLower t) idx with
  | some p => some p
  | none => alookup (pyLower (stripNumericPrefixFn t)) idx

/-- `html.escape(s)` on one character (quote=True default). -/
def htmlEscapeC (c : Char) : List Char :=
  if c = '&' then "&amp;".data
  else if c = '<' then "&lt;".data
  else if c = '>' then "&gt;".data
  else if c = '"' then "&quot;".data
  else if c = Char.ofNat 39 then "&#x27;".data
  else [c]

/-- `html.escape(s)`. -/
def htmlEscape (l : List Char) : List Char :=
  l.foldr (fun c acc => htmlEscapeC c ++ acc) []

/-- Drop the common leading components of two paths. -/
def dropCommonParts :
    List (List Char) → List (List Char) → List (List Char) × List (List Char)
  | x :: xs, y :: ys =>
    if x = y then dropCommonParts xs ys else (x :: xs, y :: ys)
  | xs, ys => (xs, ys)

/-- `os.path.relpath(target, start)` on two paths under a common root (the
shared root cancels in the common prefix, so the result is root
independent), already with forward slashes as after
`.replace(os.sep, "/")`. -/
def relpathStr (target start : List (List Char)) : List Char :=
  let p := dropCommonParts target start
  let parts := List.replicate p.2.length "..".data ++ p.1
  joinSlash (if parts = [] then [".".data] else parts)

/-- The canonical title `_repl` displays:
`title_map.get(target_md, strip_numeric_prefix(target_md.stem))`. -/
def canonicalTitleOf (titleMap : List (RelPath × List Char)) (q : RelPath) :
    List Char :=
  alookupD titleMap q (stripNumericPrefixFn (pyStem q.fname))

/-- Output components of a document's page (`relative_output_html`),
relative to the output root. -/
def outPartsOf (p : RelPath) : List (List Char) :=
  (relativeOutputHtml p).dirs ++ [(relativeOutputHtml p).fname]

/-- The current page's output directory, as computed at the top of
`replace_wikilinks_with_embeds`. -/
def outDirOf (p : RelPath) : List (List Char) := (relativeOutputHtml p).dirs

/-- The collapsible embed block emitted for a resolved wikilink, exactly the
f-string of `_repl`. -/
def wikilinkEmbedBlock (title inner href : List Char) : List Char :=
  ("<details class=\"embed-block mb-3\"><summary class=\"text-muted d-flex align-items-center justify-content-between\"><span>").data ++
    title ++
    ("</span><span class=\"chev\" aria-hidden=\"true\">▸</span></summary><div class=\"mt-2\">").data ++
    inner ++
    ("<div class=\"mt-2\"><a href=\"").data ++
    href ++
    ("\" class=\"link-secondary\">Open page →</a></div></div></details>").data

/-- `_repl(match)`: resolve the (stripped) target; on failure return the
whole match text unchanged, otherwise emit the embed block.  The alias group
`match.group(2)` is never read. -/
def wikilinkRepl (currentMdPath : RelPath)
    (titleMap embedHtmlMap : List (RelPath × List Char))
    (idx : List (List Char × RelPath)) (m : WikiMatch) : List Char :=
  match resolveWikilink idx m.g1 with
  | none => m.g0
  | some q =>
    wikilinkEmbedBlock (htmlEscape (canonicalTitleOf titleMap q))
      (alookupD embedHtmlMap q [])
      (htmlEscape (relpathStr (outPartsOf q) (outDirOf currentMdPath)))

/-- `replace_wikilinks_with_embeds(md_text, current_md_path, ...)`. -/
def replaceWikilinksWithEmbeds (mdText : List Char) (currentMdPath : RelPath)
    (titleMap embedHtmlMap : List (RelPath × List Char))
    (idx : List (List Char × RelPath)) : List Char :=
  replaceScan (wikilinkRepl currentMdPath titleMap embedHtmlMap idx) mdText

/-! The Navigation Renderer (`render_nav_html` / `render_dir`).  `NavDir`
mirrors the Python class: a name, the directory's source path (as components
relative to the input root; the shared absolute `input_root` prefix of
`node.path` and `current_md_path` cancels in `relative_to`), named
subdirectories (a dict in insertion order), and contained files.  Python's
stable `sorted` is modelled by a stable insertion sort. -/

/-- `NavFile(title, src_md, out_html)`. -/
structure NavFile where
  title : List Char
  srcMd : RelPath
  outHtml : RelPath
deriving DecidableEq

/-- `NavDir(name, path)` with its `subdirs` dict and `files` list. -/
inductive NavDir where
  | mk (name : List Char) (path : List (List Char))
      (subdirs : List (List Char × NavDir)) (files : List NavFile)

/-- The directory's name. -/
def NavDir.nameOf : NavDir → List Char
  | .mk n _ _ _ => n

/-- The directory's source path components. -/
def NavDir.pathOf : NavDir → List (List Char)
  | .mk _ p _ _ => p

/-- The directory's subdirectory dict. -/
def NavDir.subdirsOf : NavDir → List (List Char × NavDir)
  | .mk _ _ s _ => s

/-- The directory's file list. -/
def NavDir.filesOf : NavDir → List NavFile
  | .mk _ _ _ f => f

/-- `current_md_path.relative_to(node.path)`: succeeds exactly when the base
is a componentwise prefix, returning the remainder. -/
def relativeTo (p base : List (List Char)) : Option (List (List Char)) :=
  if base.isPrefixOf p then some (p.drop base.length) else none

/-- A file path as components: directories plus filename. -/
def mdParts (p : RelPath) : List (List Char) := p.dirs ++ [p.fname]

/-- `dir_contains_current(node)`: the `try/except` around
`current_md_path.relative_to(node.path)`. -/
def dirContainsCurrent (currentMdParts : List (List Char)) (node : NavDir) :
    Bool :=
  (relativeTo currentMdParts node.pathOf).isSome

/-- `" open" if dir_contains_current(sub) else ""`. -/
def openAttrFor (currentMdParts : List (List Char)) (sub : NavDir) :
    List Char :=
  if dirContainsCurrent currentMdParts sub then " open".data else []

/-- Lexicographic (code point) order on strings, Python `<=` on `str`. -/
def strLe : List Char → List Char → Bool
  | [], _ => true
  | _ :: _, [] => false
  | a :: xs, b :: ys => if a = b then strLe xs ys else decide (a < b)

/-- Stable insertion keeping equals in arrival order. -/
def stableInsert {α : Type} (le : α → α → Bool) (x : α) : List α → List α
  | [] => [x]
  | y :: ys => if le y x then y :: stableInsert le x ys else x :: y :: ys

/-- Python's stable `sorted(xs, ...)` for a total preorder `le`. -/
def stableSort {α : Type} (le : α → α → Bool) (l : List α) : List α :=
  l.foldl (fun acc x => stableInsert le x acc) []

/-- `rel_href(target)`: escaped output-relative link. -/
def relHref (curOutDir : List (List Char)) (target : RelPath) : List Char :=
  htmlEscape (relpathStr (target.dirs ++ [target.fname]) curOutDir)

/-- One `<li class="nav-item">...` entry of `render_dir`. -/
def renderFileItem (curOutDir : List (List Char))
    (titleMap : List (RelPath × List Char)) (currentMd : RelPath)
    (nf : NavFile) : List Char :=
  let label := htmlEscape
    (alookupD titleMap nf.srcMd (stripNumericPrefixFn (pyStem nf.srcMd.fname)))
  let activeCls := if nf.srcMd = currentMd then " active".data else []
  let aria := if nf.srcMd = currentMd then " aria-current=\"page\"".data else []
  ("<li class=\"nav-item\"><a class=\"nav-link").data ++ activeCls ++
    ("\"").data ++ aria ++ (" href=\"").data ++ relHref curOutDir nf.outHtml ++
    ("\">").data ++ label ++ ("</a></li>").data

/-- One subdirectory `<li><details ...>` entry of `render_dir`. -/
def renderSubdirEntry (label openAttr inner : List Char) : List Char :=
  ("<li><details class=\"mb-1\"").data ++ openAttr ++
    ("><summary class=\"fw-semibold d-flex align-items-center justify-content-between\"><span>").data ++
    label ++
    ("</span><span class=\"chev\" aria-hidden=\"true\">▸</span></summary><ul class=\"list-unstyled ms-3 my-1\">").data ++
    inner ++ ("</ul></details></li>").data

/-- `"".join(items)`. -/
def joinL (ls : List (List Char)) : List Char := ls.foldr (· ++ ·) []

theorem alookup_sizeOf_lt {α β : Type} [DecidableEq α] [SizeOf α] [SizeOf β]
    (a : α) (l : List (α × β)) (v : β) (h : alookup a l = some v) :
    sizeOf v < sizeOf l := by
  induction l with
  | nil => simp [alookup] at h
  | cons hd t ih =>
    rw [alookup] at h
    split at h
    · cases h
      cases hd
      simp
      omega
    · have := ih h
      simp
      omega

/-- `render_dir(node)`: sorted file items, then sorted subdirectory items
(the dict's unique keys are iterated in key-sorted order and looked up, as
`sorted(node.subdirs.keys(), ...)` does; a missing key — impossible for a
dict — renders nothing). -/
def renderDir (curOutDir : List (List Char))
    (titleMap : List (RelPath × List Char)) (currentMd : RelPath) :
    NavDir → List Char
  | NavDir.mk _ _ subdirs files =>
    let fileItems :=
      (stableSort
          (fun f g => strLe (pyLower f.srcMd.fname) (pyLower g.srcMd.fname))
          files).map (renderFileItem curOutDir titleMap currentMd)
    let names := stableSort (fun a b => strLe (pyLower a) (pyLower b))
      (subdirs.map Prod.fst)
    let dirItems := names.map fun nm =>
      match hsub : alookup nm subdirs with
      | some sub =>
        renderSubdirEntry (htmlEscape (stripNumericPrefixFn sub.nameOf))
          (openAttrFor (mdParts currentMd) sub)
          (renderDir curOutDir titleMap currentMd sub)
      | none => []
    joinL (fileItems ++ dirItems)
termination_by nd => sizeOf nd
decreasing_by
  have h1 := alookup_sizeOf_lt _ _ _ hsub
  simp
  omega

theorem replaceScan_nil (f : WikiMatch → List Char) : replaceScan f [] = [] := by
  rw [replaceScan.eq_def]

theorem replaceScan_cons_none (f : WikiMatch → List Char) (c : Char)
    (cs : List Char) (h : matchWikilink (c :: cs) = none) :
    replaceScan f (c :: cs) = c :: replaceScan f cs := by
  rw [replaceScan.eq_def]
  split
  · rename_i h2
    cases h2
  · rename_i c2 cs2 h2
    injection h2 with e1 e2
    subst e1
    subst e2
    split
    · rename_i m2 h3
      rw [h] at h3
      cases h3
    · rfl

theorem replaceScan_cons_some (f : WikiMatch → List Char) (c : Char)
    (cs : List Char) (m : WikiMatch) (h : matchWikilink (c :: cs) = some m) :
    replaceScan f (c :: cs) = f m ++ replaceScan f m.rest := by
  rw [replaceScan.eq_def]
  split
  · rename_i h2
    cases h2
  · rename_i c2 cs2 h2
    injection h2 with e1 e2
    subst e1
    subst e2
    split
    · rename_i m2 h3
      rw [h] at h3
      injection h3 with e3
      rw [e3]
    · rename_i h3
      rw [h] at h3
      cases h3

/-- Some position of the text starts a match of the wikilink pattern;
`false` means the text has no substring matching the pattern. -/
def anyWikilinkMatchAt : List Char → Bool
  | [] => false
  | c :: cs => (matchWikilink (c :: cs)).isSome || anyWikilinkMatchAt cs

/-- C10: for every input text containing no substring matching the
double-bracket reference-marker pattern, `replace_wikilinks_with_embeds`
returns the text unchanged, regardless of the current page, the link index,
or the embed map. -/
theorem replaceWikilinks_id_of_no_marker (text : List Char)
    (currentMdPath : RelPath) (titleMap embedHtmlMap : List (RelPath × List Char))
    (idx : List (List Char × RelPath))
    (h : anyWikilinkMatchAt text = false) :
    replaceWikilinksWithEmbeds text currentMdPath titleMap embedHtmlMap idx =
      text := by
  unfold replaceWikilinksWithEmbeds
  induction text with
  | nil => exact replaceScan_nil _
  | cons c cs ih =>
    rw [anyWikilinkMatchAt] at h
    have h1 : matchWikilink (c :: cs) = none := by
      cases hm : matchWikilink (c :: cs) with
      | none => rfl
      | some m => rw [hm] at h; simp at h
    have h2 : anyWikilinkMatchAt cs = false := by
      rw [h1] at h
      simpa using h
    rw [replaceScan_cons_none _ _ _ h1, ih h2]

/-- C10 witness: a concrete marker-free text through the rewriter on a
concrete context. -/
theorem replaceWikilinks_id_of_no_marker_witness :
    replaceWikilinksWithEmbeds "no [markers] here ][ x".data
      ⟨["1g".data], "a.md".data⟩ [] [] [] = "no [markers] here ][ x".data :=
  replaceWikilinks_id_of_no_marker _ _ _ _ _ (by decide)

/-- C4 counterexample: `strip_numeric_prefix` is not idempotent — on
`"01 02 x"` one application yields `"02 x"` and a second application strips
again. -/
theorem stripNumericPrefix_not_idempotent :
    stripNumericPrefixFn (stripNumericPrefixFn "01 02 x".data) ≠
      stripNumericPrefixFn "01 02 x".data := by decide

theorem stripNumericPrefixFn_eq_self (t : List Char)
    (hm : ordMatch t = none) (hs : pyStrip t = t) :
    stripNumericPrefixFn t = t := by
  unfold stripNumericPrefixFn
  simp only [hm, hs, ite_self]

/-- C4 (amended): each application strips exactly one leading ordinal
prefix, so re-application is a no-op exactly when the stripped result does
not itself begin with an ordinal prefix: if the ordinal pattern does not
match the output, `strip_numeric_prefix` is idempotent there. -/
theorem stripNumericPrefix_idem_of_no_match (s : List Char)
    (h : ordMatch (stripNumericPrefixFn s) = none) :
    stripNumericPrefixFn (stripNumericPrefixFn s) =
      stripNumericPrefixFn s := by
  cases hA : ordMatch s with
  | none =>
    have e : stripNumericPrefixFn s =
        if pyStrip s = [] then s else pyStrip s := by
      unfold stripNumericPrefixFn
      simp only [hA]
    by_cases hC : pyStrip s = []
    · have hFs : stripNumericPrefixFn s = s := by rw [e, if_pos hC]
      rw [hFs]
      exact hFs
    · have hFs : stripNumericPrefixFn s = pyStrip s := by rw [e, if_neg hC]
      rw [hFs] at h ⊢
      exact stripNumericPrefixFn_eq_self _ h (stripLR_idem isSpaceC s)
  | some r =>
    have e : stripNumericPrefixFn s =
        if pyStrip r = [] then s else pyStrip r := by
      unfold stripNumericPrefixFn
      simp only [hA]
    by_cases hC : pyStrip r = []
    · have hFs : stripNumericPrefixFn s = s := by rw [e, if_pos hC]
      rw [hFs]
      exact hFs
    · have hFs : stripNumericPrefixFn s = pyStrip r := by rw [e, if_neg hC]
      rw [hFs] at h ⊢
      exact stripNumericPrefixFn_eq_self _ h (stripLR_idem isSpaceC r)

/-- C4 witness: on `"01 x"` the stripped result `"x"` has no further
ordinal prefix and re-application is a no-op. -/
theorem stripNumericPrefix_idem_witness :
    ordMatch (stripNumericPrefixFn "01 x".data) = none ∧
      stripNumericPrefixFn (stripNumericPrefixFn "01 x".data) =
        stripNumericPrefixFn "01 x".data :=
  ⟨by decide, stripNumericPrefix_idem_of_no_match _ (by decide)⟩

theorem byteHex_length (b : Nat) : (byteHex b).length = 2 := rfl

theorem foldr_byteHex_length (bs : List Nat) :
    (bs.foldr (fun b acc => byteHex b ++ acc) []).length = 2 * bs.length := by
  induction bs with
  | nil => rfl
  | cons b t ih =>
    simp [List.foldr, byteHex_length, ih]
    omega

theorem md5Bytes_length (msg : List Nat) : (md5Bytes msg).length = 16 := by
  simp [md5Bytes, le4]

theorem md5Hexdigest_length (s : List Char) : (md5Hexdigest s).length = 32 := by
  unfold md5Hexdigest
  rw [foldr_byteHex_length, md5Bytes_length]

theorem md5Hex6_length (s : List Char) : (md5Hex6 s).length = 6 := by
  simp [md5Hex6, md5Hexdigest_length]

theorem hexChar_mem_digits (n : Nat) : hexChar n ∈ hexDigits := by
  unfold hexChar
  cases h : hexDigits.get? n with
  | none => decide
  | some c => exact List.get?_mem h

theorem isSpaceDot_hexChar (n : Nat) : isSpaceDot (hexChar n) = false := by
  have h := hexChar_mem_digits n
  generalize hexChar n = c at h ⊢
  fin_cases h <;> decide

theorem mem_foldr_byteHex (bs : List Nat) (c : Char)
    (h : c ∈ bs.foldr (fun b acc => byteHex b ++ acc) []) :
    ∃ n, c = hexChar n := by
  induction bs with
  | nil => simp at h
  | cons b t ih =>
    simp only [List.foldr, List.mem_append] at h
    rcases h with h | h
    · simp [byteHex] at h
      rcases h with h | h
      · exact ⟨_, h⟩
      · exact ⟨_, h⟩
    · exact ih h

theorem isSpaceDot_of_mem_md5Hex6 (s : List Char) (c : Char)
    (h : c ∈ md5Hex6 s) : isSpaceDot c = false := by
  have h2 : c ∈ md5Hexdigest s := List.mem_of_mem_take h
  obtain ⟨n, rfl⟩ := mem_foldr_byteHex _ _ h2
  exact isSpaceDot_hexChar n

/-- C8 counterexample: the stem `" "` becomes empty after sanitization, yet
the sanitizer returns just a dash plus the hash (no `"untitled"`); and the
already-empty stem returns `"untitled"` with no hash suffix at all. -/
theorem sanitize_empty_stem_counterexample :
    sanitizedCore " ".data = [] ∧
      sanitizeStemForWindows " ".data "x".data 80 = "-9dd4e4".data ∧
      ¬ ("untitled".data <+: sanitizeStemForWindows " ".data "x".data 80) ∧
      md5Hex6 "x".data = "9dd4e4".data ∧
      sanitizeStemForWindows [] "x".data 80 = "untitled".data := by
  refine ⟨by decide, by decide, by decide, by decide, by decide⟩

/-- C8 (amended): a nonempty stem that becomes empty after sanitization
resolves to just the uniqueness hash suffix `-<6 hex digits>` — the
`"untitled"` placeholder is not used; `"untitled"` (without any hash) is
returned only when the stem is empty at the very end, i.e. for an empty
input stem. -/
theorem sanitize_of_empty_core (stem rel : List Char) (hne : stem ≠ [])
    (hcore : sanitizedCore stem = []) :
    sanitizeStemForWindows stem rel 80 = '-' :: md5Hex6 rel ∧
      sanitizeStemForWindows [] rel 80 = "untitled".data := by
  constructor
  · have hch : decide (([] : List Char) ≠ stem) = true := by
      simp only [decide_eq_true_eq]
      exact fun e => hne e.symm
    have hstrip : stripLR isSpaceDot ('-' :: md5Hex6 rel) =
        '-' :: md5Hex6 rel := by
      apply stripLR_of_all
      intro c hc
      simp only [List.mem_cons] at hc
      rcases hc with rfl | hc
      · decide
      · simp [isSpaceDot_of_mem_md5Hex6 rel c hc]
    have hresP : pyUpper ([] : List Char) ∉ windowsReservedNames := by decide
    unfold sanitizeStemForWindows
    rw [hcore]
    simp only [List.length_nil, hch, Bool.true_or, if_true, md5Hex6_length,
      List.length_cons]
    have eA : (if (0 : Nat) > 80 then List.take 80 ([] : List Char)
        else ([] : List Char)) = [] := by norm_num
    simp only [eA]
    have eB : decide (pyUpper ([] : List Char) ∈ windowsReservedNames) =
        false := by decide
    simp only [eB]
    simp only [Bool.false_eq_true, if_false, List.length_nil, List.nil_append]
    norm_num
    rw [hstrip]
    simp
  · rfl

/-! Filename decomposition facts for names ending in `.md`, shared by the
path-mapper and tree-builder claims. -/

theorem lastDotIdx_append_md (s : List Char) :
    lastDotIdx (s ++ ".md".data) = some s.length := by
  induction s with
  | nil => rfl
  | cons c cs ih => simp [lastDotIdx, ih]

theorem pyStem_append_md (s : List Char) (hs : s ≠ []) :
    pyStem (s ++ ".md".data) = s := by
  unfold pyStem
  rw [lastDotIdx_append_md]
  dsimp only
  have h1 : 0 < s.length := List.length_pos.mpr hs
  have h2 : s.length < (s ++ ".md".data).length - 1 := by simp
  rw [if_pos ⟨h1, h2⟩]
  exact List.take_left s _

theorem pySuffix_append_md (s : List Char) (hs : s ≠ []) :
    pySuffix (s ++ ".md".data) = ".md".data := by
  unfold pySuffix
  rw [lastDotIdx_append_md]
  dsimp only
  have h1 : 0 < s.length := List.length_pos.mpr hs
  have h2 : s.length < (s ++ ".md".data).length - 1 := by simp
  rw [if_pos ⟨h1, h2⟩]
  exact List.drop_left s _

theorem md_decomp (fname : List Char) (hsuf : ".md".data <:+ fname)
    (hdot : startsWithDot fname = false) :
    ∃ s, s ≠ [] ∧ fname = s ++ ".md".data := by
  obtain ⟨s, rfl⟩ := hsuf
  refine ⟨s, ?_, rfl⟩
  rintro rfl
  simp [startsWithDot] at hdot

theorem isMarkdownFile_append_md (s : List Char) (hs : s ≠ []) :
    isMarkdownFile (s ++ ".md".data) = true := by
  unfold isMarkdownFile
  rw [pySuffix_append_md s hs]
  decide

/-- C8 witness: the empty-after-sanitization stem `" "` with hash input
`"x"`. -/
theorem sanitize_of_empty_core_witness :
    sanitizeStemForWindows " ".data "x".data 80 = '-' :: md5Hex6 "x".data ∧
      sanitizeStemForWindows [] "x".data 80 = "untitled".data :=
  sanitize_of_empty_core " ".data "x".data (by decide) (by decide)

/-- C6 counterexample: the document `1g/.h/doc.md`, inside a hidden
directory, is in `write_pages`' flat document list even though one of its
path components starts with a dot. -/
theorem hidden_dir_doc_in_flat_list :
    writeIncluded ⟨["1g".data, ".h".data], "doc.md".data⟩ = true ∧
      ¬ (∀ d ∈ (RelPath.mk ["1g".data, ".h".data] "doc.md".data).dirs,
          startsWithDot d = false) := by
  constructor
  · decide
  · decide

/-- C6 (amended): the navigation tree contains no document with a hidden
path component (directory or filename), and the flat written list excludes
documents whose own filename is hidden — but it does not exclude documents
inside hidden subdirectories. -/
theorem hidden_entries_excluded (p : RelPath) :
    (navIncluded p = true →
      (∀ d ∈ p.dirs, startsWithDot d = false) ∧
        startsWithDot p.fname = false) ∧
    (writeIncluded p = true → startsWithDot p.fname = false) := by
  constructor
  · intro h
    unfold navIncluded at h
    simp only [Bool.and_eq_true, List.all_eq_true, Bool.not_eq_true'] at h
    exact ⟨h.1.1.1.1, h.1.1.2⟩
  · intro h
    unfold writeIncluded isIncludedMd at h
    simp only [Bool.and_eq_true] at h
    by_contra hdot
    simp only [Bool.not_eq_false] at hdot
    rw [if_pos hdot] at h
    exact absurd h.2 (by simp)

/-- C6 witness: an ordinary included document discharges the navigation
hypothesis. -/
theorem hidden_entries_excluded_witness :
    (∀ d ∈ (RelPath.mk ["1g".data] "doc.md".data).dirs,
        startsWithDot d = false) ∧
      startsWithDot ("doc.md".data) = false :=
  (hidden_entries_excluded ⟨["1g".data], "doc.md".data⟩).1 (by decide)

/-- C7 counterexample: `1g/note.markdown` is in the navigation tree but no
page is written for it (`rglob` only collects `*.md`); conversely
`1g/.h/note2.md` gets a page but is pruned from the navigation tree. -/
theorem nav_and_write_sets_differ :
    navIncluded ⟨["1g".data], "note.markdown".data⟩ = true ∧
      writeIncluded ⟨["1g".data], "note.markdown".data⟩ = false ∧
      writeIncluded ⟨["1g".data, ".h".data], "note2.md".data⟩ = true ∧
      navIncluded ⟨["1g".data, ".h".data], "note2.md".data⟩ = false := by
  refine ⟨by decide, by decide, by decide, by decide⟩

/-- C7 (amended): the navigation tree and the flat written list agree on
every document whose markdown extension is literally `.md` and whose
directory components are not hidden; the 1:1 correspondence of the claim
holds exactly on such source trees. -/
theorem navIncluded_eq_writeIncluded (p : RelPath)
    (hext : isMarkdownFile p.fname = true → ".md".data <:+ p.fname)
    (hdirs : ∀ d ∈ p.dirs, startsWithDot d = false) :
    navIncluded p = writeIncluded p := by
  cases hdot : startsWithDot p.fname with
  | true =>
    have hnav : navIncluded p = false := by
      unfold navIncluded
      simp [hdot]
    have hw : writeIncluded p = false := by
      unfold writeIncluded isIncludedMd
      rw [if_pos hdot]
      simp
    rw [hnav, hw]
  | false =>
    cases hmd : isMarkdownFile p.fname with
    | false =>
      have hnav : navIncluded p = false := by
        unfold navIncluded
        simp [hmd]
      have hsuf : decide (".md".data <:+ p.fname) = false := by
        by_contra hc
        simp only [Bool.not_eq_false, decide_eq_true_eq] at hc
        obtain ⟨s, hs, heq⟩ := md_decomp _ hc hdot
        rw [heq, isMarkdownFile_append_md s hs] at hmd
        cases hmd
      have hw : writeIncluded p = false := by
        unfold writeIncluded
        rw [hsuf]
        simp
      rw [hnav, hw]
    | true =>
      have hsuf : decide (".md".data <:+ p.fname) = true := by
        simpa using hext hmd
      have halld : (p.dirs).all (fun x => !startsWithDot x) = true := by
        simp only [List.all_eq_true]
        intro x hx
        simp [hdirs x hx]
      cases hd : p.dirs with
      | nil =>
        have hnav : navIncluded p =
            decide (pyLower p.fname = "index.md".data) := by
          unfold navIncluded
          rw [hd] at halld ⊢
          rw [halld]
          simp [hdot, hmd]
        have hw : writeIncluded p =
            decide (pyLower p.fname = "index.md".data) := by
          unfold writeIncluded isIncludedMd
          rw [hsuf, if_neg (by simp [hdot]), hd]
          simp
        rw [hnav, hw]
      | cons d ds =>
        have hnav : navIncluded p = headDigit d := by
          unfold navIncluded
          rw [hd] at halld ⊢
          rw [halld]
          simp [hdot, hmd]
        have hw : writeIncluded p = headDigit d := by
          unfold writeIncluded isIncludedMd
          rw [hsuf, if_neg (by simp [hdot]), hd]
          simp
        rw [hnav, hw]

/-- C7 witness: an ordinary `.md` document under a numbered folder is in
both sets. -/
theorem navIncluded_eq_writeIncluded_witness :
    navIncluded ⟨["1g".data], "doc2.md".data⟩ =
      writeIncluded ⟨["1g".data], "doc2.md".data⟩ :=
  navIncluded_eq_writeIncluded _ (by decide) (by decide)

/-! Path-mapper facts about `index` documents (C5). -/

theorem lowerC_eq_dot (c : Char) (h : lowerC c = '.') : c = '.' := by
  rcases lowerC_pair_mem c with h1 | h1
  · exact h1.symm.trans h
  · have h2 : ∀ x ∈ ulTable, x.2 ≠ '.' := by decide
    exact absurd h (h2 _ h1)

theorem ne_dot_of_lowerC (c x : Char) (h : lowerC c = x) (hx : x ≠ '.') :
    c ≠ '.' := by
  rintro rfl
  exact hx (h.symm.trans (by decide))

theorem pyLower_withSuffixHtml_of_index (fname : List Char)
    (hlow : pyLower fname = "index.md".data) :
    pyLower (pyWithSuffixHtml fname) = "index.html".data := by
  cases fname with
  | nil => simp [pyLower] at hlow
  | cons c0 t0 =>
  cases t0 with
  | nil => simp [pyLower] at hlow
  | cons c1 t1 =>
  cases t1 with
  | nil => simp [pyLower] at hlow
  | cons c2 t2 =>
  cases t2 with
  | nil => simp [pyLower] at hlow
  | cons c3 t3 =>
  cases t3 with
  | nil => simp [pyLower] at hlow
  | cons c4 t4 =>
  cases t4 with
  | nil => simp [pyLower] at hlow
  | cons c5 t5 =>
  cases t5 with
  | nil => simp [pyLower] at hlow
  | cons c6 t6 =>
  cases t6 with
  | nil => simp [pyLower] at hlow
  | cons c7 t7 =>
  cases t7 with
  | cons c8 t8 => simp [pyLower] at hlow
  | nil =>
  simp only [pyLower, List.map, List.cons.injEq, and_true] at hlow
  obtain ⟨h0, h1, h2, h3, h4, h5, h6, h7⟩ := hlow
  have hc5 : c5 = '.' := lowerC_eq_dot c5 h5
  have hc6 : c6 ≠ '.' := ne_dot_of_lowerC c6 _ h6 (by decide)
  have hc7 : c7 ≠ '.' := ne_dot_of_lowerC c7 _ h7 (by decide)
  have hdot : lastDotIdx [c0, c1, c2, c3, c4, c5, c6, c7] = some 5 := by
    simp [lastDotIdx, hc5, hc6, hc7]
  have hws : pyWithSuffixHtml [c0, c1, c2, c3, c4, c5, c6, c7] =
      [c0, c1, c2, c3, c4] ++ ".html".data := by
    unfold pyWithSuffixHtml pySuffix pyStem
    rw [hdot]
    norm_num
    simp
  rw [hws]
  have hlit : pyLower ".html".data = ".html".data := by decide
  unfold pyLower at hlit ⊢
  rw [List.map_append, hlit]
  simp [h0, h1, h2, h3, h4]

/-- The output directory components always equal the source directory
components: only the filename is ever rewritten. -/
theorem relativeOutputHtml_dirs (p : RelPath) :
    (relativeOutputHtml p).dirs = p.dirs := by
  unfold relativeOutputHtml
  split
  · rename_i hcond
    exact hcond.2.symm
  · split
    · rfl
    · rfl

/-- C5: a root document named `index` (case-insensitively) maps to the
output root's `index.html`; an `index` document in a subfolder maps to an
index page (case-insensitive name `index.html`) of that same subfolder and
never to the root's; and every document keeps its directory path. -/
theorem index_document_mapping (p : RelPath) :
    ((relativeOutputHtml p).dirs = p.dirs) ∧
      (p.dirs = [] → pyLower p.fname = "index.md".data →
        relativeOutputHtml p = ⟨[], "index.html".data⟩) ∧
      (p.dirs ≠ [] → pyLower p.fname = "index.md".data →
        (relativeOutputHtml p).dirs = p.dirs ∧
          pyLower (relativeOutputHtml p).fname = "index.html".data ∧
          relativeOutputHtml p ≠ ⟨[], "index.html".data⟩) := by
  refine ⟨relativeOutputHtml_dirs p, ?_, ?_⟩
  · intro hroot hlow
    unfold relativeOutputHtml
    rw [if_pos ⟨hlow, hroot⟩]
  · intro hsub hlow
    have hout : relativeOutputHtml p = ⟨p.dirs, pyWithSuffixHtml p.fname⟩ := by
      unfold relativeOutputHtml
      rw [if_neg (by rintro ⟨-, h2⟩; exact hsub h2), if_pos hlow]
    refine ⟨by rw [hout], ?_, ?_⟩
    · rw [hout]
      exact pyLower_withSuffixHtml_of_index p.fname hlow
    · rw [hout]
      intro he
      injection he with hd hf
      exact hsub hd

/-- C5 witness: the three branches at concrete documents `INDEX.md` (root)
and `2notes/Index.md` (subfolder). -/
theorem index_document_mapping_witness :
    relativeOutputHtml ⟨[], "INDEX.md".data⟩ = ⟨[], "index.html".data⟩ ∧
      (pyLower (relativeOutputHtml ⟨["2notes".data], "Index.md".data⟩).fname =
          "index.html".data ∧
        relativeOutputHtml ⟨["2notes".data], "Index.md".data⟩ ≠
          ⟨[], "index.html".data⟩) :=
  ⟨(index_document_mapping ⟨[], "INDEX.md".data⟩).2.1 rfl (by decide),
    ⟨((index_document_mapping ⟨["2notes".data], "Index.md".data⟩).2.2
        (by decide) (by decide)).2.1,
      ((index_document_mapping ⟨["2notes".data], "Index.md".data⟩).2.2
        (by decide) (by decide)).2.2⟩⟩

/-! Output-path uniqueness (C1). -/

theorem writeIncluded_facts (p : RelPath) (h : writeIncluded p = true) :
    ".md".data <:+ p.fname ∧ startsWithDot p.fname = false ∧
      (p.dirs = [] → pyLower p.fname = "index.md".data) := by
  unfold writeIncluded isIncludedMd at h
  simp only [Bool.and_eq_true, decide_eq_true_eq] at h
  obtain ⟨hsuf, hrest⟩ := h
  cases hdot : startsWithDot p.fname with
  | true =>
    rw [if_pos hdot] at hrest
    cases hrest
  | false =>
    rw [if_neg (by simp [hdot])] at hrest
    refine ⟨hsuf, rfl, ?_⟩
    intro hnil
    rw [hnil] at hrest
    simpa using hrest

theorem pyWithSuffixHtml_of_md (s : List Char) (hs : s ≠ []) :
    pyWithSuffixHtml (s ++ ".md".data) =
      pyStem (s ++ ".md".data) ++ ".html".data := by
  unfold pyWithSuffixHtml
  rw [if_neg]
  rw [pySuffix_append_md s hs]
  decide

/-- The output of an included document, under the no-hash-suffix hypothesis:
either it is the root `index` document mapping to the root `index.html`, or
it keeps its (nonempty-or-root) directories and maps to its stem plus
`.html`. -/
theorem relativeOutputHtml_of_writeIncluded (p : RelPath)
    (h : writeIncluded p = true)
    (hsan : pyLower p.fname ≠ "index.md".data →
      sanitizeStemForWindows (pyStem p.fname) (posixOf p) 80 = pyStem p.fname) :
    (p.dirs = [] ∧ pyLower p.fname = "index.md".data ∧
        relativeOutputHtml p = ⟨[], "index.html".data⟩) ∨
      (p.dirs ≠ [] ∧
        relativeOutputHtml p = ⟨p.dirs, pyStem p.fname ++ ".html".data⟩) := by
  obtain ⟨hsuf, hdot, hroot⟩ := writeIncluded_facts p h
  obtain ⟨s, hs, heq⟩ := md_decomp p.fname hsuf hdot
  cases hd : p.dirs with
  | nil =>
    left
    have hlow := hroot hd
    refine ⟨rfl, hlow, ?_⟩
    unfold relativeOutputHtml
    rw [if_pos ⟨hlow, hd⟩]
  | cons d ds =>
    right
    refine ⟨by simp, ?_⟩
    by_cases hlow : pyLower p.fname = "index.md".data
    · unfold relativeOutputHtml
      rw [if_neg (by rintro ⟨-, h2⟩; rw [hd] at h2; cases h2), if_pos hlow]
      rw [heq, pyWithSuffixHtml_of_md s hs, ← heq, hd]
    · unfold relativeOutputHtml
      rw [if_neg (by rintro ⟨h1, -⟩; exact hlow h1), if_neg hlow,
        hsan hlow, hd]

/-- C1 counterexample: two pairs of distinct included documents with equal
output paths.  At the source root, `index.md` and `INDEX.md` both map to
`index.html`; in a numbered folder, `a .md` (stem altered by trimming, so
hash-suffixed with `md5("1g/a .md")[:6] = "225794"`) collides with a
document literally named `a-225794.md`. -/
theorem output_paths_collide :
    relativeOutputHtml ⟨[], "index.md".data⟩ =
        relativeOutputHtml ⟨[], "INDEX.md".data⟩ ∧
      (RelPath.mk [] "index.md".data) ≠ ⟨[], "INDEX.md".data⟩ ∧
      writeIncluded ⟨[], "index.md".data⟩ = true ∧
      writeIncluded ⟨[], "INDEX.md".data⟩ = true ∧
      relativeOutputHtml ⟨["1g".data], "a .md".data⟩ =
        relativeOutputHtml ⟨["1g".data], "a-225794.md".data⟩ ∧
      (RelPath.mk ["1g".data] "a .md".data) ≠ ⟨["1g".data], "a-225794.md".data⟩ ∧
      writeIncluded ⟨["1g".data], "a .md".data⟩ = true ∧
      writeIncluded ⟨["1g".data], "a-225794.md".data⟩ = true := by
  refine ⟨by decide, by decide, by decide, by decide, by decide, by decide,
    by decide, by decide⟩

/-- C1 (amended): output paths of two distinct included documents are
distinct provided (a) the two are not both root-level `index` case variants
and (b) any document on the sanitizer branch has its stem left unaltered
(no hash suffix involved).  A document whose stem is altered gets a
content-hash suffix that reduces but does not eliminate collisions: a
same-directory document literally named like the hash-suffixed stem (or a
second root `INDEX.md` case variant) collides. -/
theorem output_paths_distinct (p q : RelPath)
    (hp : writeIncluded p = true) (hq : writeIncluded q = true)
    (hne : p ≠ q) (hroot : ¬ (p.dirs = [] ∧ q.dirs = []))
    (hpsan : pyLower p.fname ≠ "index.md".data →
      sanitizeStemForWindows (pyStem p.fname) (posixOf p) 80 = pyStem p.fname)
    (hqsan : pyLower q.fname ≠ "index.md".data →
      sanitizeStemForWindows (pyStem q.fname) (posixOf q) 80 = pyStem q.fname) :
    relativeOutputHtml p ≠ relativeOutputHtml q := by
  obtain ⟨hpsuf, hpdot, -⟩ := writeIncluded_facts p hp
  obtain ⟨hqsuf, hqdot, -⟩ := writeIncluded_facts q hq
  obtain ⟨sp, hsp, hep⟩ := md_decomp p.fname hpsuf hpdot
  obtain ⟨sq, hsq, heq⟩ := md_decomp q.fname hqsuf hqdot
  rcases relativeOutputHtml_of_writeIncluded p hp hpsan with
    ⟨hpd, hplow, hpo⟩ | ⟨hpd, hpo⟩ <;>
    rcases relativeOutputHtml_of_writeIncluded q hq hqsan with
      ⟨hqd, hqlow, hqo⟩ | ⟨hqd, hqo⟩
  · exact absurd ⟨hpd, hqd⟩ hroot
  · rw [hpo, hqo]
    intro he
    injection he with h1 h2
    exact hqd h1.symm
  · rw [hpo, hqo]
    intro he
    injection he with h1 h2
    exact hpd h1
  · rw [hpo, hqo]
    intro he
    injection he with h1 h2
    have hstem : pyStem p.fname = pyStem q.fname :=
      List.append_cancel_right h2
    have hfn : p.fname = q.fname := by
      rw [hep, heq]
      rw [hep, pyStem_append_md sp hsp] at hstem
      rw [heq, pyStem_append_md sq hsq] at hstem
      rw [hstem]
    apply hne
    cases p
    cases q
    simp only at h1 hfn
    rw [h1, hfn]

/-- C1 witness: two clean documents in the same numbered folder get
distinct output paths. -/
theorem output_paths_distinct_witness :
    relativeOutputHtml ⟨["1g".data], "alpha.md".data⟩ ≠
      relativeOutputHtml ⟨["1g".data], "beta.md".data⟩ :=
  output_paths_distinct ⟨["1g".data], "alpha.md".data⟩
    ⟨["1g".data], "beta.md".data⟩ (by decide) (by decide) (by decide)
    (by decide) (fun _ => by decide) (fun _ => by decide)

/-! The Link Index characterization and resolution order (C2). -/

theorem isSpaceC_lowerC (c : Char) : isSpaceC (lowerC c) = isSpaceC c := by
  rcases lowerC_pair_mem c with h | h
  · rw [h]
  · exact (by decide : ∀ x ∈ ulTable, isSpaceC x.2 = isSpaceC x.1) _ h

theorem isDigitC_lowerC (c : Char) : isDigitC (lowerC c) = isDigitC c := by
  rcases lowerC_pair_mem c with h | h
  · rw [h]
  · exact (by decide : ∀ x ∈ ulTable, isDigitC x.2 = isDigitC x.1) _ h

theorem classA_lowerC (c : Char) : classA (lowerC c) = classA c := by
  rcases lowerC_pair_mem c with h | h
  · rw [h]
  · exact (by decide : ∀ x ∈ ulTable, classA x.2 = classA x.1) _ h

theorem classSep_lowerC (c : Char) : classSep (lowerC c) = classSep c := by
  rcases lowerC_pair_mem c with h | h
  · rw [h]
  · exact (by decide : ∀ x ∈ ulTable, classSep x.2 = classSep x.1) _ h

theorem lowerC_idem (c : Char) : lowerC (lowerC c) = lowerC c := by
  rcases lowerC_pair_mem c with h | h
  · rw [h]
    exact h
  · exact (by decide : ∀ x ∈ ulTable, lowerC x.2 = x.2) _ h

theorem pyLower_idem (l : List Char) : pyLower (pyLower l) = pyLower l := by
  unfold pyLower
  induction l with
  | nil => rfl
  | cons c cs ih => simp only [List.map, lowerC_idem, ih]

theorem dropWhile_map_lowerC (p : Char → Bool)
    (hp : ∀ c, p (lowerC c) = p c) (l : List Char) :
    (l.map lowerC).dropWhile p = (l.dropWhile p).map lowerC := by
  induction l with
  | nil => rfl
  | cons c cs ih =>
    by_cases h : p c
    · simp only [List.map, List.dropWhile, hp, h, ih]
    · simp [List.dropWhile, hp, h]

theorem stripRightP_map_lowerC (p : Char → Bool)
    (hp : ∀ c, p (lowerC c) = p c) (l : List Char) :
    stripRightP p (l.map lowerC) = (stripRightP p l).map lowerC := by
  induction l with
  | nil => rfl
  | cons c cs ih =>
    rw [List.map, stripRightP_cons, stripRightP_cons, ih]
    cases hrec : stripRightP p cs with
    | nil =>
      by_cases hc : p c <;> simp [hp, hc]
    | cons r rs => simp

theorem pyStrip_map_lowerC (l : List Char) :
    pyStrip (l.map lowerC) = (pyStrip l).map lowerC := by
  unfold pyStrip stripLR
  rw [dropWhile_map_lowerC isSpaceC isSpaceC_lowerC,
    stripRightP_map_lowerC isSpaceC isSpaceC_lowerC]

theorem oOr_map {α β : Type} (f : α → β) (a b : Option α) :
    oOr (a.map f) (b.map f) = (oOr a b).map f := by
  cases a <;> rfl

theorem matchSepWS_map (l : List Char) :
    matchSepWS (l.map lowerC) = (matchSepWS l).map (List.map lowerC) := by
  cases l with
  | nil => rfl
  | cons c cs =>
    rw [List.map, matchSepWS, matchSepWS, classSep_lowerC]
    by_cases h : classSep c
    · rw [if_pos h, if_pos h, dropWhile_map_lowerC isSpaceC isSpaceC_lowerC]
      rfl
    · rw [if_neg h, if_neg h]
      rfl

theorem matchWSSep_map (l : List Char) :
    matchWSSep (l.map lowerC) = (matchWSSep l).map (List.map lowerC) := by
  induction l with
  | nil => rfl
  | cons c cs ih =>
    rw [List.map, matchWSSep, matchWSSep, isSpaceC_lowerC]
    by_cases h : isSpaceC c
    · rw [if_pos h, if_pos h, ih, ← List.map, matchSepWS_map, oOr_map]
    · rw [if_neg h, if_neg h, ← List.map, matchSepWS_map]

theorem matchTail_map (l : List Char) :
    matchTail (l.map lowerC) = (matchTail l).map (List.map lowerC) := by
  induction l with
  | nil => rfl
  | cons c cs ih =>
    rw [List.map, matchTail, matchTail, classA_lowerC]
    by_cases h : classA c
    · rw [if_pos h, if_pos h, ih, ← List.map, matchWSSep_map, oOr_map]
    · rw [if_neg h, if_neg h, ← List.map, matchWSSep_map]

theorem ordMatch_map (l : List Char) :
    ordMatch (l.map lowerC) = (ordMatch l).map (List.map lowerC) := by
  unfold ordMatch
  rw [dropWhile_map_lowerC isSpaceC isSpaceC_lowerC]
  cases hd : l.dropWhile isSpaceC with
  | nil => rfl
  | cons c cs =>
    rw [List.map]
    dsimp only
    rw [isDigitC_lowerC]
    by_cases h : isDigitC c
    · rw [if_pos h, if_pos h, matchTail_map]
    · rw [if_neg h, if_neg h]
      rfl

theorem stripNumericPrefixFn_map (s : List Char) :
    stripNumericPrefixFn (s.map lowerC) = (stripNumericPrefixFn s).map lowerC := by
  unfold stripNumericPrefixFn
  rw [ordMatch_map]
  cases hm : ordMatch s with
  | none =>
    dsimp only [Option.map]
    rw [pyStrip_map_lowerC]
    by_cases he : pyStrip s = []
    · rw [he]
      simp
    · rw [if_neg (by simpa using he), if_neg he]
  | some r =>
    dsimp only [Option.map]
    rw [pyStrip_map_lowerC]
    by_cases he : pyStrip r = []
    · rw [he]
      simp
    · rw [if_neg (by simpa using he), if_neg he]

theorem oOr_none_right {α : Type} (a : Option α) : oOr a none = a := by
  cases a <;> rfl

theorem oOr_assoc {α : Type} (a b c : Option α) :
    oOr (oOr a b) c = oOr a (oOr b c) := by
  cases a <;> rfl

/-- The lowercased nonempty candidate keys one document offers. -/
def lowerKeys (titleMap : List (RelPath × List Char)) (p : RelPath) :
    List (List Char) :=
  ((candKeys titleMap p).filter (fun x => !decide (x = []))).map pyLower

theorem alookup_append_single (idx : List (List Char × RelPath))
    (k k' : List Char) (p : RelPath) :
    alookup k' (idx ++ [(k, p)]) =
      oOr (alookup k' idx) (if k = k' then some p else none) := by
  induction idx with
  | nil => rfl
  | cons hd t ih =>
    rw [List.cons_append, alookup, alookup]
    by_cases h : hd.1 = k'
    · rw [if_pos h, if_pos h]
      rfl
    · rw [if_neg h, if_neg h, ih]

theorem alookup_setdefault (idx : List (List Char × RelPath))
    (k k' : List Char) (p : RelPath) :
    alookup k' (setdefault idx k p) =
      oOr (alookup k' idx) (if k = k' then some p else none) := by
  unfold setdefault
  cases hk : alookup k idx with
  | none => exact alookup_append_single idx k k' p
  | some v =>
    by_cases he : k = k'
    · subst he
      rw [hk]
      rfl
    · rw [if_neg he, oOr_none_right]

theorem alookup_foldl_keys (p : RelPath) (ks : List (List Char))
    (idx : List (List Char × RelPath)) (k : List Char) :
    alookup k (ks.foldl
        (fun i kk => if kk = [] then i else setdefault i (pyLower kk) p) idx) =
      oOr (alookup k idx)
        (if k ∈ (ks.filter (fun x => !decide (x = []))).map pyLower
          then some p else none) := by
  induction ks generalizing idx with
  | nil => simp [oOr_none_right]
  | cons kk ks ih =>
    rw [List.foldl]
    by_cases hk : kk = []
    · rw [if_pos hk, ih]
      have hf : List.filter (fun x => !decide (x = [])) (kk :: ks) =
          List.filter (fun x => !decide (x = [])) ks := by
        simp [hk]
      rw [hf]
    · rw [if_neg hk, ih, alookup_setdefault, oOr_assoc]
      have hf : List.filter (fun x => !decide (x = [])) (kk :: ks) =
          kk :: List.filter (fun x => !decide (x = [])) ks := by
        simp [hk]
      rw [hf, List.map]
      congr 1
      by_cases hkk : pyLower kk = k
      · rw [if_pos hkk, if_pos (show k ∈ pyLower kk ::
          (List.filter (fun x => !decide (x = [])) ks).map pyLower from by
            rw [hkk]; exact List.mem_cons_self _ _)]
        rfl
      · rw [if_neg hkk]
        have hiff : (k ∈ pyLower kk ::
            (List.filter (fun x => !decide (x = [])) ks).map pyLower) ↔
            (k ∈ (List.filter (fun x => !decide (x = [])) ks).map pyLower) := by
          rw [List.mem_cons]
          constructor
          · rintro (he | hm2)
            · exact absurd he.symm hkk
            · exact hm2
          · exact fun hm2 => Or.inr hm2
        rw [if_congr hiff rfl rfl]
        rfl

theorem alookup_addDocKeys (tm : List (RelPath × List Char))
    (idx : List (List Char × RelPath)) (p : RelPath) (k : List Char) :
    alookup k (addDocKeys tm idx p) =
      oOr (alookup k idx) (if k ∈ lowerKeys tm p then some p else none) :=
  alookup_foldl_keys p (candKeys tm p) idx k

theorem alookup_buildWikilinkIndex_aux (tm : List (RelPath × List Char))
    (ps : List RelPath) (idx : List (List Char × RelPath)) (k : List Char) :
    alookup k (ps.foldl (addDocKeys tm) idx) =
      oOr (alookup k idx)
        (ps.find? fun p => decide (k ∈ lowerKeys tm p)) := by
  induction ps generalizing idx with
  | nil => simp [oOr_none_right]
  | cons p ps ih =>
    rw [List.foldl, ih, alookup_addDocKeys, oOr_assoc]
    congr 1
    rw [List.find?_cons]
    by_cases hm : k ∈ lowerKeys tm p
    · rw [if_pos hm, decide_eq_true hm]
      rfl
    · rw [if_neg hm, decide_eq_false hm]
      rfl

theorem alookup_buildWikilinkIndex (ps : List RelPath)
    (tm : List (RelPath × List Char)) (k : List Char) :
    alookup k (buildWikilinkIndex ps tm) =
      ps.find? (fun p => decide (k ∈ lowerKeys tm p)) := by
  unfold buildWikilinkIndex
  rw [alookup_buildWikilinkIndex_aux]
  rfl

theorem resolveWikilink_eq_oOr (idx : List (List Char × RelPath))
    (t : List Char) :
    resolveWikilink idx t =
      oOr (alookup (pyLower (pyStrip t)) idx)
        (alookup (pyLower (stripNumericPrefixFn (pyStrip t))) idx) := by
  unfold resolveWikilink oOr
  dsimp only
  cases alookup (pyLower (pyStrip t)) idx <;> rfl

theorem resolveWikilink_lower (idx : List (List Char × RelPath))
    (t : List Char) :
    resolveWikilink idx (pyLower t) = resolveWikilink idx t := by
  rw [resolveWikilink_eq_oOr, resolveWikilink_eq_oOr]
  have h1 : pyStrip (pyLower t) = pyLower (pyStrip t) := by
    unfold pyLower
    exact pyStrip_map_lowerC t
  have h2 : pyLower (pyLower (pyStrip t)) = pyLower (pyStrip t) :=
    pyLower_idem _
  have h3 : stripNumericPrefixFn (pyLower (pyStrip t)) =
      pyLower (stripNumericPrefixFn (pyStrip t)) := by
    unfold pyLower
    exact stripNumericPrefixFn_map _
  rw [h1, h2, h3, pyLower_idem]

/-- C2: the Link Index binds each lowercased key to the earliest document in
the flat list offering it (raw stem, ordinal-stripped stem, or canonical
title; empty keys skipped) and later documents never override it; and
resolution strips the token, then tries the verbatim lowercased token before
its ordinal-stripped lowercased form, insensitively to the token's case. -/
theorem wikilink_index_spec (ps : List RelPath)
    (tm : List (RelPath × List Char)) (k t : List Char) :
    alookup k (buildWikilinkIndex ps tm) =
        ps.find? (fun p => decide (k ∈ lowerKeys tm p)) ∧
      resolveWikilink (buildWikilinkIndex ps tm) t =
        oOr (alookup (pyLower (pyStrip t)) (buildWikilinkIndex ps tm))
          (alookup (pyLower (stripNumericPrefixFn (pyStrip t)))
            (buildWikilinkIndex ps tm)) ∧
      resolveWikilink (buildWikilinkIndex ps tm) (pyLower t) =
        resolveWikilink (buildWikilinkIndex ps tm) t :=
  ⟨alookup_buildWikilinkIndex ps tm k, resolveWikilink_eq_oOr _ t,
    resolveWikilink_lower _ t⟩

/-! The Reference Rewriter's label and fail-soft behaviour (C3) and the
navigation open-state (C9). -/

/-- C3: for any text whose head matches the wikilink pattern, an unresolved
target leaves the whole marker text verbatim in the output, while a resolved
target emits the collapsible block labelled with the target's canonical
title (the matched alias group plays no role in either case). -/
theorem wikilink_label_and_passthrough (l : List Char) (cur : RelPath)
    (tm em : List (RelPath × List Char)) (idx : List (List Char × RelPath))
    (m : WikiMatch) (hm : matchWikilink l = some m) :
    (resolveWikilink idx m.g1 = none →
      replaceWikilinksWithEmbeds l cur tm em idx =
        m.g0 ++ replaceWikilinksWithEmbeds m.rest cur tm em idx) ∧
    (∀ q, resolveWikilink idx m.g1 = some q →
      replaceWikilinksWithEmbeds l cur tm em idx =
        wikilinkEmbedBlock (htmlEscape (canonicalTitleOf tm q))
            (alookupD em q [])
            (htmlEscape (relpathStr (outPartsOf q) (outDirOf cur))) ++
          replaceWikilinksWithEmbeds m.rest cur tm em idx) := by
  cases l with
  | nil => simp [matchWikilink] at hm
  | cons c cs =>
    constructor
    · intro hr
      unfold replaceWikilinksWithEmbeds
      rw [replaceScan_cons_some _ _ _ _ hm]
      unfold wikilinkRepl
      rw [hr]
    · intro q hq
      unfold replaceWikilinksWithEmbeds
      rw [replaceScan_cons_some _ _ _ _ hm]
      unfold wikilinkRepl
      rw [hq]

/-- Concrete document for the C3 witness. -/
def pDocW : RelPath := ⟨["1g".data], "Doc.md".data⟩

/-- Concrete embed map for the C3 witness. -/
def emW : List (RelPath × List Char) := [(pDocW, "<p>hi</p>".data)]

/-- Concrete link index for the C3 witness. -/
def idxW : List (List Char × RelPath) := [("doc".data, pDocW)]

/-- Concrete pattern match for the C3 witness. -/
def mW : WikiMatch :=
  ⟨"[[Doc|Alias]]".data, "Doc".data, some "Alias".data, " and [[gone]]".data⟩

/-- C3 witness: `[[Doc|Alias]]` resolved against a one-document index
renders the block with the canonical title `Doc`, not the alias. -/
theorem wikilink_label_and_passthrough_witness :
    replaceWikilinksWithEmbeds "[[Doc|Alias]] and [[gone]]".data pDocW []
        emW idxW =
      wikilinkEmbedBlock (htmlEscape (canonicalTitleOf [] pDocW))
          (alookupD emW pDocW [])
          (htmlEscape (relpathStr (outPartsOf pDocW) (outDirOf pDocW))) ++
        replaceWikilinksWithEmbeds " and [[gone]]".data pDocW [] emW idxW :=
  (wikilink_label_and_passthrough "[[Doc|Alias]] and [[gone]]".data pDocW []
      emW idxW mW (by decide)).2 pDocW (by decide)

/-- C9: the navigation disclosure of a subdirectory is marked open exactly
when the current page's source path lies within that subdirectory's subtree
(`relative_to` succeeds exactly on componentwise prefixes), and collapsed
otherwise; a directory node holding one subdirectory renders that
subdirectory's entry with precisely this open attribute. -/
theorem nav_subdir_open_iff (curOutDir : List (List Char))
    (tm : List (RelPath × List Char)) (curMd : RelPath)
    (nm subName : List Char) (pth : List (List Char)) (sub : NavDir) :
    (dirContainsCurrent (mdParts curMd) sub = true ↔
        sub.pathOf <+: mdParts curMd) ∧
      (openAttrFor (mdParts curMd) sub = " open".data ↔
        sub.pathOf <+: mdParts curMd) ∧
      (openAttrFor (mdParts curMd) sub = [] ↔
        ¬ sub.pathOf <+: mdParts curMd) ∧
      renderDir curOutDir tm curMd (NavDir.mk nm pth [(subName, sub)] []) =
        renderSubdirEntry (htmlEscape (stripNumericPrefixFn sub.nameOf))
          (openAttrFor (mdParts curMd) sub)
          (renderDir curOutDir tm curMd sub) := by
  have hiff : dirContainsCurrent (mdParts curMd) sub = true ↔
      sub.pathOf <+: mdParts curMd := by
    unfold dirContainsCurrent relativeTo
    by_cases h : sub.pathOf.isPrefixOf (mdParts curMd)
    · simp only [if_pos h, Option.isSome_some, true_iff]
      exact List.isPrefixOf_iff_prefix.mp h
    · simp only [if_neg h, Option.isSome_none]
      constructor
      · intro hc
        exact absurd hc (by decide)
      · intro hc
        exact absurd (List.isPrefixOf_iff_prefix.mpr hc) h
  refine ⟨hiff, ?_, ?_, ?_⟩
  · unfold openAttrFor
    by_cases h : dirContainsCurrent (mdParts curMd) sub
    · rw [if_pos h]
      simp only [true_iff]
      exact hiff.mp h
    · rw [if_neg h]
      constructor
      · intro he
        exact absurd he (by decide)
      · intro hc
        exact absurd (hiff.mpr hc) h
  · unfold openAttrFor
    by_cases h : dirContainsCurrent (mdParts curMd) sub
    · rw [if_pos h]
      constructor
      · intro he
        exact absurd he (by decide)
      · intro hc
        exact absurd (hiff.mp h) hc
    · rw [if_neg h]
      simp only [true_iff]
      intro hc
      exact absurd (hiff.mpr hc) h
  · rw [renderDir.eq_def]
    dsimp only
    rw [show stableSort (fun a b => strLe (pyLower a) (pyLower b))
        ([(subName, sub)].map Prod.fst) = [subName] from rfl]
    rw [List.map]
    rw [show alookup subName [(subName, sub)] = some sub from by
      unfold alookup
      rw [if_pos rfl]]
    simp [stableSort, stableInsert, joinL]
